import Mathlib

/-!
Verification of the container-map core of `docker-map` against its
specification.  The definitions below are a shallow embedding of
`dockermap/map/container.py`, `dockermap/map/runner/signal_stop.py` and
`dockermap/map/runner/cmd.py`.  Python dictionaries are modelled as
association lists (later bindings overwrite earlier ones) and raised
exceptions as `Except String`.  Python sets are modelled as `Finset`, or
as duplicate-free lists when only their elements matter; where a set's
iteration order is observable (the `set(...).difference(...)` batches of
`merge_dependency`), CPython iterates in a hash-dependent, unspecified
order, so the enumeration is taken as an explicit parameter ranging over
the permutations of the batch.
-/

/-- One `links_to` entry of a container assignment: the linked container
(instance) name and the alias under which it is linked.  Only the
`container` side is read by `container.py`. -/
structure ContainerLink where
  container : String
  linkAlias : String := ""
  deriving DecidableEq, Repr

/-- One `binds` entry of a container assignment: a volume alias bound from
the host, with a read-only flag.  `container.py` reads `b.volume`. -/
structure SharedBinding where
  volume : String
  readOnly : Bool := false
  deriving DecidableEq, Repr

/-- One configured exec command (`dockermap.map.input.ExecCommand`): an
optional user and a command string, as read by `runner/cmd.py`. -/
structure ExecCommand where
  user : Option String := none
  cmd : String
  deriving DecidableEq, Repr

/-- A configured stop signal: Python allows a string (e.g. `'SIGTERM'`) or
an integer signal number here. -/
inductive StopSignal where
  | str (s : String)
  | num (n : Int)
  deriving DecidableEq, Repr

/-- The declarative record for one container
(`dockermap.map.assignment.ContainerAssignment`).  The fields are the
attributes read by `container.py` (`instances`, `shares`, `binds`, `uses`,
`attaches`, `links_to`); `networks`, `exec_commands` and `stop_signal` are
modelled from the spec's data model (§3), which lists them among the
assignment attributes read by the runner and the dependency model. -/
structure ContainerAssignment where
  image : Option String := none
  instances : List String := []
  shares : List String := []
  binds : List SharedBinding := []
  uses : List String := []
  attaches : List String := []
  links_to : List ContainerLink := []
  networks : List String := []
  exec_commands : List ExecCommand := []
  stop_signal : Option StopSignal := none
  deriving DecidableEq, Repr

/-- A container map (`ContainerMap`): a name, the host volume assignment
(`host`, alias → host path), the volume alias map (`volumes`,
alias → container path) and the container assignments (a dict
`config_name → ContainerAssignment`, modelled as an association list). -/
structure ContainerMap where
  name : String
  host : List (String × String) := []
  volumes : List (String × String) := []
  containers : List (String × ContainerAssignment) := []
  deriving DecidableEq, Repr

/-! ### `ContainerMap.cname` -/

/-- `ContainerMap.cname`: formats the instantiated container's name.
Python tests `if instance:`, so `None` and the empty string both take the
two-part branch; `'.'.join` becomes `++ "." ++`. -/
def ContainerMap.cname (m : ContainerMap) (container : String) :
    Option String → String
  | some i =>
      if i.isEmpty then m.name ++ "." ++ container
      else m.name ++ "." ++ container ++ "." ++ i
  | none => m.name ++ "." ++ container

/-! ### `ContainerMap.get` and `ContainerMap.get_existing` -/

/-- The possible results of a map lookup: the reserved `host` entry, the
reserved `volumes` entry, or a container assignment. -/
inductive MapEntry where
  | hostEntry (h : List (String × String))
  | volumesEntry (v : List (String × String))
  | containerEntry (c : ContainerAssignment)
  deriving DecidableEq, Repr

/-- `ContainerMap.get`: `host` and `volumes` are reserved and return the
host-volume assignment resp. the volume alias map; any other name returns
the container assignment.  The auto-creation of a missing assignment
(`DictMap.get` on the `defaultdict`, documented as returning an initial
assignment) is modelled by returning the default (empty) assignment. -/
def ContainerMap.get (m : ContainerMap) (item : String) : MapEntry :=
  if item = "host" then .hostEntry m.host
  else if item = "volumes" then .volumesEntry m.volumes
  else .containerEntry ((m.containers.lookup item).getD {})

/-- `ContainerMap.get_existing`: same as `get`, except that a missing
container assignment is not created; `None` (here `none`) is returned
instead (`self._map.get(item)`). -/
def ContainerMap.get_existing (m : ContainerMap) (item : String) :
    Option MapEntry :=
  if item = "host" then some (.hostEntry m.host)
  else if item = "volumes" then some (.volumesEntry m.volumes)
  else (m.containers.lookup item).map .containerEntry

/-! ### `ExecMixin.exec_commands` and `exec_container_commands` -/

/-- One call issued against the daemon client by the exec runner. -/
inductive ExecCall where
  | create (user : Option String) (cmd : String)
  | start (id : Nat)
  deriving DecidableEq, Repr

/-- `ExecMixin.exec_commands`: for each command, `exec_create` with the
command's user and cmd; if the create result is truthy, `exec_start` with
its `Id`; otherwise continue with the next command.  The client's
`exec_create` result is modelled by `createResult` (`none` = falsy result,
`some id` = a result carrying `Id`); the returned list is the trace of
client calls in order. -/
def exec_commands (createResult : Option String → String → Option Nat) :
    List ExecCommand → List ExecCall
  | [] => []
  | rc :: rest =>
      match createResult rc.user rc.cmd with
      | some e_id =>
          .create rc.user rc.cmd :: .start e_id ::
            exec_commands createResult rest
      | none =>
          .create rc.user rc.cmd :: exec_commands createResult rest

/-- `ExecMixin.exec_container_commands`: reads the assignment's
`exec_commands`; `if not config_cmds: return` (no client call), else runs
`exec_commands` on them. -/
def exec_container_commands
    (createResult : Option String → String → Option Nat)
    (config_cmds : List ExecCommand) : List ExecCall :=
  if config_cmds.isEmpty then []
  else exec_commands createResult config_cmds

/-! ### `SignalMixin.signal_stop` -/

/-- One call issued against the daemon client by `signal_stop`. -/
inductive StopCall where
  | stop (timeout : Option Nat)
  | kill (sig : StopSignal)
  | wait (timeout : Nat)
  deriving DecidableEq, Repr

/-- The assembled stop kwargs (`get_stop_kwargs`); only the optional
`timeout` key is read again by `signal_stop` (for `wait`). -/
structure StopKwargs where
  timeout : Option Nat := none
  deriving DecidableEq, Repr

/-- Python truthiness of the `not sig` test in `signal_stop`: an absent
signal, the empty string and the integer `0` are falsy. -/
def sigFalsy : Option StopSignal → Bool
  | none => true
  | some (.str s) => s.isEmpty
  | some (.num n) => n = 0

/-- The stop-branch condition of `signal_stop`:
`not sig or sig == 'SIGTERM' or sig == signal.SIGTERM` (the signal number
of SIGTERM is 15). -/
def sigUsesStopBranch (sig : Option StopSignal) : Bool :=
  sigFalsy sig || sig = some (.str "SIGTERM") || sig = some (.num 15)

/-- `SignalMixin.signal_stop`: on the stop branch, `client.stop` with the
assembled kwargs, catching a `Timeout` (modelled by `stopTimesOut`) and
downgrading it to a warning; otherwise `client.kill` with the configured
signal followed by `client.wait` with `stop_kwargs.get('timeout', 10)`.
Returns the trace of client calls and whether the timeout warning was
logged; no exception escapes in either modelled branch. -/
def signal_stop (sig : Option StopSignal) (stop_kwargs : StopKwargs)
    (stopTimesOut : Bool) : List StopCall × Bool :=
  if sigUsesStopBranch sig then
    ([.stop stop_kwargs.timeout], stopTimesOut)
  else
    match sig with
    | some s => ([.kill s, .wait (stop_kwargs.timeout.getD 10)], false)
    | none => ([], false)  -- unreachable: an absent signal is falsy

/-! ### Theorems for the name formatting and lookup claims -/

/-- C8 counterexample: the claim states that whenever an instance name is
given, `cname` returns `map_name.container_name.instance_name`.  For the
empty instance name the code takes the falsy branch and returns only
`map_name.container_name`, not `m.c.`. -/
theorem cname_empty_instance_counterexample :
    ContainerMap.cname ⟨"m", [], [], []⟩ "c" (some "") = "m.c" ∧
      ContainerMap.cname ⟨"m", [], [], []⟩ "c" (some "") ≠ "m.c." := by
  constructor
  · rfl
  · decide

/-- C8 (amended): `cname` returns `map_name.container_name.instance_name`
when a non-empty instance name is given, and `map_name.container_name`
when no instance or an empty instance name is given. -/
theorem cname_spec (m : ContainerMap) (container : String) (i : String) :
    (¬ i.isEmpty →
      m.cname container (some i) = m.name ++ "." ++ container ++ "." ++ i) ∧
    m.cname container none = m.name ++ "." ++ container ∧
    m.cname container (some "") = m.name ++ "." ++ container := by
  refine ⟨fun h => ?_, rfl, rfl⟩
  simp [ContainerMap.cname, h]

/-- C8 witness: `cname` evaluated through `cname_spec` at a concrete
non-empty instance. -/
theorem cname_spec_witness :
    ContainerMap.cname ⟨"m", [], [], []⟩ "c" (some "i") = "m.c.i" :=
  (cname_spec ⟨"m", [], [], []⟩ "c" "i").1 (by decide)

/-- C9: `get` and `get_existing` both return the host-volume assignment for
`host` and the volume alias map for `volumes`, whatever container
assignments the map holds (so those two names never address a container
assignment), and `get_existing` returns `none` for any other name without
an existing assignment instead of creating one. -/
theorem get_reserved_keys_spec (m : ContainerMap) :
    m.get "host" = .hostEntry m.host ∧
    m.get "volumes" = .volumesEntry m.volumes ∧
    m.get_existing "host" = some (.hostEntry m.host) ∧
    m.get_existing "volumes" = some (.volumesEntry m.volumes) ∧
    ∀ item, item ≠ "host" → item ≠ "volumes" →
      m.containers.lookup item = none → m.get_existing item = none := by
  refine ⟨rfl, rfl, rfl, rfl, fun item h1 h2 h3 => ?_⟩
  simp [ContainerMap.get_existing, h1, h2, h3]

/-- C9 witness: `get_reserved_keys_spec` applied to a concrete map, with the
missing-name clause discharged at the name `web`. -/
theorem get_reserved_keys_spec_witness :
    ContainerMap.get_existing ⟨"m", [("v", "/p")], [], []⟩ "web" = none :=
  (get_reserved_keys_spec ⟨"m", [("v", "/p")], [], []⟩).2.2.2.2 "web"
    (by decide) (by decide) rfl

/-- C6: `exec_commands` issues exactly one `exec_create` per command in
list order, with that command's user and cmd, follows it with `exec_start`
on the returned `Id` exactly when the create result is non-empty, and
continues with the remaining commands otherwise. -/
theorem exec_commands_spec (createResult : Option String → String → Option Nat)
    (run_cmds : List ExecCommand) :
    exec_commands createResult run_cmds =
      run_cmds.flatMap (fun c =>
        .create c.user c.cmd ::
          ((createResult c.user c.cmd).map .start).toList) := by
  induction run_cmds with
  | nil => rfl
  | cons c rest ih =>
      cases h : createResult c.user c.cmd <;>
        simp [exec_commands, h, ih]

/-- C10: when the assignment's configured `exec_commands` list is empty (or
missing, which Python treats the same via `if not config_cmds`),
`exec_container_commands` issues no client call at all. -/
theorem exec_container_commands_empty
    (createResult : Option String → String → Option Nat) :
    exec_container_commands createResult [] = [] := rfl

/-- C5 counterexample: the claim routes every signal other than an absent
one, `'SIGTERM'` and the SIGTERM number to the kill/wait branch, but the
configured signal number `0` is falsy in Python, so `signal_stop` takes
the stop branch and issues no kill or wait. -/
theorem signal_stop_zero_counterexample :
    signal_stop (some (.num 0)) ⟨none⟩ false = ([.stop none], false) ∧
      StopSignal.num 0 ≠ .str "SIGTERM" ∧ StopSignal.num 0 ≠ .num 15 := by
  decide

/-- C5 (amended): when the configured stop signal is absent or falsy
(`none`, the empty string, the number `0`), or is `'SIGTERM'` or the
SIGTERM signal number 15, `signal_stop` calls the client's `stop` with the
assembled kwargs and a stop timeout is downgraded to a warning (no
exception propagates and no kill/wait is issued); for any other configured
signal it calls `kill` with that signal and then `wait`, with the wait
timeout taken from the stop kwargs and defaulting to 10. -/
theorem signal_stop_spec (sig : Option StopSignal) (kw : StopKwargs)
    (stopTimesOut : Bool) :
    ((sig = none ∨ sig = some (.str "") ∨ sig = some (.num 0) ∨
        sig = some (.str "SIGTERM") ∨ sig = some (.num 15)) →
      signal_stop sig kw stopTimesOut = ([.stop kw.timeout], stopTimesOut)) ∧
    (∀ s, sig = some s → s ≠ .str "" → s ≠ .num 0 → s ≠ .str "SIGTERM" →
      s ≠ .num 15 →
      signal_stop sig kw stopTimesOut =
        ([.kill s, .wait (kw.timeout.getD 10)], false)) := by
  constructor
  · rintro (rfl | rfl | rfl | rfl | rfl) <;> rfl
  · rintro s rfl h1 h2 h3 h4
    have hb : sigUsesStopBranch (some s) = false := by
      cases s with
      | str t =>
          have ht1 : t ≠ "" := fun h => h1 (by rw [h])
          have ht3 : t ≠ "SIGTERM" := fun h => h3 (by rw [h])
          have ht0 : t.isEmpty = false := by
            cases h : t.isEmpty
            · rfl
            · exact absurd ((String.isEmpty_iff t).mp h) ht1
          simp [sigUsesStopBranch, sigFalsy, ht0, ht3]
      | num n =>
          have hn2 : n ≠ 0 := fun h => h2 (by rw [h])
          have hn4 : n ≠ 15 := fun h => h4 (by rw [h])
          simp [sigUsesStopBranch, sigFalsy, hn2, hn4]
    simp [signal_stop, hb]

/-- C5 witness: `signal_stop_spec` applied on both branches at concrete
signals. -/
theorem signal_stop_spec_witness :
    signal_stop (some (.str "SIGTERM")) ⟨some 5⟩ true =
        ([.stop (some 5)], true) ∧
      signal_stop (some (.str "SIGUSR1")) ⟨none⟩ false =
        ([.kill (.str "SIGUSR1"), .wait 10], false) :=
  ⟨(signal_stop_spec (some (.str "SIGTERM")) ⟨some 5⟩ true).1
      (Or.inr (Or.inr (Or.inr (Or.inl rfl)))),
    (signal_stop_spec (some (.str "SIGUSR1")) ⟨none⟩ false).2
      (.str "SIGUSR1") rfl (by decide) (by decide) (by decide) (by decide)⟩

/-! ### `ContainerMap.dependency_items` -/

/-- The precomputed attached → owner dict of `dependency_items`
(`dict((attaches, c_name) for c_name, c_assignment in self for attaches in
c_assignment.attaches)`).  In a Python dict comprehension, later bindings
overwrite earlier ones. -/
def attachedOwnerMap (m : ContainerMap) : List (String × String) :=
  m.containers.flatMap (fun p => p.2.attaches.map (fun a => (a, p.1)))

/-- `attached.get(u, u)`: the owner of `u` in the attached → owner dict
(last binding wins, hence the `reverse`), falling back to `u` itself. -/
def attachedGet (m : ContainerMap) (u : String) : String :=
  ((attachedOwnerMap m).reverse.lookup u).getD u

/-- The `dep_set` of one container assignment inside `dependency_items`:
each `uses` entry rewritten through the attached → owner dict, united with
the container side of each `links_to` entry. -/
def depSet (m : ContainerMap) (ca : ContainerAssignment) : Finset String :=
  (ca.uses.map (attachedGet m)).toFinset ∪
    (ca.links_to.map (fun l => l.container)).toFinset

/-- `ContainerMap.dependency_items`: for every container, one node per
`c_name.instance` followed by the bare `c_name` node, each paired with the
container's `dep_set`. -/
def dependency_items (m : ContainerMap) : List (String × Finset String) :=
  m.containers.flatMap (fun p =>
    (p.2.instances.map (fun i => (p.1 ++ "." ++ i, depSet m p.2))) ++
      [(p.1, depSet m p.2)])

/-- A helper: looking up a key absent from an association list gives
`none`. -/
theorem lookup_eq_none_of_keys_ne {β : Type} (a : String) :
    ∀ l : List (String × β), (∀ p ∈ l, p.1 ≠ a) → l.lookup a = none := by
  intro l
  induction l with
  | nil => intro _; rfl
  | cons p ps ih =>
      intro h
      have hne : p.1 ≠ a := h p (List.mem_cons_self _ _)
      have hb : (a == p.1) = false := beq_eq_false_iff_ne.mpr (Ne.symm hne)
      obtain ⟨k, v⟩ := p
      simp only [List.lookup]
      rw [hb]
      exact ih fun q hq => h q (List.mem_cons_of_mem _ hq)

/-- The container assignment used as the C1 counterexample: a container
that is attached to the network `net0` and has no other relationship. -/
def netAssignment : ContainerAssignment := { networks := ["net0"] }

/-- The map used as the C1 counterexample. -/
def netMap : ContainerMap := ⟨"m", [], [], [("web", netAssignment)]⟩

/-- C1 counterexample: the claim includes each network the container is
attached to among its direct dependencies, but `dependency_items` builds
the `dep_set` only from `uses` and `links_to`: the `web` container is
attached to the network `net0`, yet its node's dependency set is empty. -/
theorem dependency_items_no_networks_counterexample :
    netMap.containers = [("web", netAssignment)] ∧
      "net0" ∈ netAssignment.networks ∧
      dependency_items netMap = [("web", (∅ : Finset String))] ∧
      "net0" ∉ depSet netMap netAssignment := by
  refine ⟨rfl, by decide, by decide, by decide⟩

/-- C1 (amended): `dependency_items` yields one node for the bare container
name plus one node per `c_name.instance`, and each node's direct dependency
set consists of the `uses` entries with an attached-volume name replaced by
its owning container's name (otherwise kept as-is) united with the
container side of each `links_to` entry; networks are not included. -/
theorem dependency_items_spec (m : ContainerMap) :
    (∀ n d, ((n, d) ∈ dependency_items m ↔
      ∃ p ∈ m.containers,
        (n = p.1 ∨ ∃ i ∈ p.2.instances, n = p.1 ++ "." ++ i) ∧
          d = depSet m p.2)) ∧
    (∀ ca x, (x ∈ depSet m ca ↔
      (∃ u ∈ ca.uses, x = attachedGet m u) ∨
        ∃ l ∈ ca.links_to, x = l.container)) ∧
    (∀ u, (∀ p ∈ m.containers, u ∉ p.2.attaches) → attachedGet m u = u) := by
  refine ⟨fun n d => ?_, fun ca x => ?_, fun u hu => ?_⟩
  · simp only [dependency_items, List.mem_flatMap, List.mem_append,
      List.mem_map, List.mem_singleton, Prod.mk.injEq]
    constructor
    · rintro ⟨p, hp, ⟨i, hi, h1, h2⟩ | ⟨h1, h2⟩⟩
      · exact ⟨p, hp, Or.inr ⟨i, hi, h1.symm⟩, h2.symm⟩
      · exact ⟨p, hp, Or.inl h1, h2⟩
    · rintro ⟨p, hp, h1 | ⟨i, hi, h1⟩, h2⟩
      · exact ⟨p, hp, Or.inr ⟨h1, h2⟩⟩
      · exact ⟨p, hp, Or.inl ⟨i, hi, h1.symm, h2.symm⟩⟩
  · simp only [depSet, Finset.mem_union, List.mem_toFinset, List.mem_map]
    constructor
    · rintro (⟨u, hu, h⟩ | ⟨l, hl, h⟩)
      · exact Or.inl ⟨u, hu, h.symm⟩
      · exact Or.inr ⟨l, hl, h.symm⟩
    · rintro (⟨u, hu, h⟩ | ⟨l, hl, h⟩)
      · exact Or.inl ⟨u, hu, h.symm⟩
      · exact Or.inr ⟨l, hl, h.symm⟩
  · have hnone : (attachedOwnerMap m).reverse.lookup u = none := by
      apply lookup_eq_none_of_keys_ne
      intro p hp
      rw [List.mem_reverse] at hp
      simp only [attachedOwnerMap, List.mem_flatMap, List.mem_map] at hp
      obtain ⟨q, hq, a, ha, rfl⟩ := hp
      exact fun h => hu q hq (h ▸ ha)
    simp [attachedGet, hnone]

/-- C1 witness: `dependency_items_spec` applied to the concrete map
`netMap`, with the kept-as-is clause discharged at a name that is not an
attached alias. -/
theorem dependency_items_spec_witness : attachedGet netMap "x" = "x" :=
  (dependency_items_spec netMap).2.2 "x" (by decide)

/-! ### `ContainerDependencyResolver.merge_dependency` -/

/-- A canonical duplicate-free representation of the set
`set(parent_dep).difference(dep)`: each element of the input list is kept
the first time it occurs, unless it is in `seen`.  This fixes only the
set's *elements*; the order in which CPython would iterate them is
hash-dependent and is therefore supplied separately, as an arbitrary
permutation of this list. -/
def dedupAcc (seen : List String) : List String → List String
  | [] => []
  | x :: xs =>
      if x ∈ seen then dedupAcc seen xs else x :: dedupAcc (x :: seen) xs

/-- Membership in `dedupAcc`: exactly the input elements not in `seen`. -/
theorem mem_dedupAcc (x : String) : ∀ (l seen : List String),
    x ∈ dedupAcc seen l ↔ x ∈ l ∧ x ∉ seen := by
  intro l
  induction l with
  | nil => intro seen; simp [dedupAcc]
  | cons y ys ih =>
      intro seen
      by_cases hy : y ∈ seen
      · rw [dedupAcc, if_pos hy, ih]
        constructor
        · rintro ⟨h1, h2⟩; exact ⟨List.mem_cons_of_mem _ h1, h2⟩
        · rintro ⟨h1, h2⟩
          rcases List.mem_cons.mp h1 with rfl | h1
          · exact absurd hy h2
          · exact ⟨h1, h2⟩
      · rw [dedupAcc, if_neg hy, List.mem_cons, ih]
        constructor
        · rintro (rfl | ⟨h1, h2⟩)
          · exact ⟨List.mem_cons_self _ _, hy⟩
          · exact ⟨List.mem_cons_of_mem _ h1,
              fun hs => h2 (List.mem_cons_of_mem _ hs)⟩
        · rintro ⟨h1, h2⟩
          rcases List.mem_cons.mp h1 with rfl | h1
          · exact Or.inl rfl
          · by_cases hxy : x = y
            · exact Or.inl hxy
            · refine Or.inr ⟨h1, fun hs => ?_⟩
              rcases List.mem_cons.mp hs with h | h
              · exact hxy h
              · exact h2 h

/-- `dedupAcc` produces a duplicate-free list. -/
theorem nodup_dedupAcc : ∀ (l seen : List String), (dedupAcc seen l).Nodup := by
  intro l
  induction l with
  | nil => intro _; simp [dedupAcc]
  | cons y ys ih =>
      intro seen
      by_cases hy : y ∈ seen
      · rw [dedupAcc, if_pos hy]; exact ih seen
      · rw [dedupAcc, if_neg hy]
        refine List.nodup_cons.mpr ⟨fun hmem => ?_, ih _⟩
        exact ((mem_dedupAcc y ys (y :: seen)).mp hmem).2
          (List.mem_cons_self _ _)

/-- `dedupAcc` only depends on the membership of the seen list. -/
theorem dedupAcc_congr : ∀ (l s₁ s₂ : List String),
    (∀ x, x ∈ s₁ ↔ x ∈ s₂) → dedupAcc s₁ l = dedupAcc s₂ l := by
  intro l
  induction l with
  | nil => intro _ _ _; rfl
  | cons y ys ih =>
      intro s₁ s₂ h
      by_cases hy : y ∈ s₁
      · rw [dedupAcc, if_pos hy, dedupAcc, if_pos ((h y).mp hy)]
        exact ih _ _ h
      · have hy2 : y ∉ s₂ := fun hm => hy ((h y).mpr hm)
        rw [dedupAcc, if_neg hy, dedupAcc, if_neg hy2]
        rw [ih (y :: s₁) (y :: s₂) (fun x => by simp [List.mem_cons, h x])]

/-- `dedupAcc` over an appended list splits into two passes, the second
seeing the output of the first. -/
theorem dedupAcc_append : ∀ (l₁ l₂ seen : List String),
    dedupAcc seen (l₁ ++ l₂) =
      dedupAcc seen l₁ ++ dedupAcc (dedupAcc seen l₁ ++ seen) l₂ := by
  intro l₁
  induction l₁ with
  | nil => intro l₂ seen; simp [dedupAcc]
  | cons y ys ih =>
      intro l₂ seen
      by_cases hy : y ∈ seen
      · rw [List.cons_append, dedupAcc, if_pos hy, dedupAcc, if_pos hy]
        exact ih l₂ seen
      · rw [List.cons_append, dedupAcc, if_neg hy, dedupAcc, if_neg hy]
        rw [ih l₂ (y :: seen), List.cons_append]
        congr 1
        congr 1
        apply dedupAcc_congr
        intro x
        simp only [List.mem_append, List.mem_cons]
        tauto

/-- `ContainerDependencyResolver.merge_dependency`: start from the list of
direct parents, then for each parent in order extend the list with the
parent's resolved dependencies that are not yet in it
(`dep.extend(set(parent_dep).difference(dep))`), skipping falsy (empty)
resolution results.  The iteration order of each
`set(parent_dep).difference(dep)` batch is hash-dependent in CPython, so
it is a parameter: `setOrder` receives the batch's canonical
representation `dedupAcc dep parent_dep` and returns the order the
interpreter enumerates it in.  A faithful enumeration yields exactly the
batch's elements, i.e. `(setOrder l).Perm l`; `fun l => l` is one such
enumeration, `fun l => l.reverse` another. -/
def merge_dependency (setOrder : List String → List String) (item : String)
    (resolve_parent : String → List String) (parents : List String) :
    List String :=
  parents.foldl
    (fun dep parent =>
      let parent_dep := resolve_parent parent
      if parent_dep.isEmpty then dep
      else dep ++ setOrder (dedupAcc dep parent_dep))
    parents

/-- Every fold step of `merge_dependency` only appends, so the starting
accumulator is a prefix of the result. -/
theorem merge_foldl_prefix (setOrder : List String → List String)
    (f : String → List String) : ∀ (ps acc : List String),
    ∃ t, ps.foldl
        (fun dep parent =>
          if (f parent).isEmpty then dep
          else dep ++ setOrder (dedupAcc dep (f parent)))
        acc = acc ++ t := by
  intro ps
  induction ps with
  | nil => intro acc; exact ⟨[], by simp⟩
  | cons p ps ih =>
      intro acc
      rw [List.foldl_cons]
      by_cases hp : (f p).isEmpty
      · rw [if_pos hp]
        exact ih acc
      · rw [if_neg hp]
        obtain ⟨t, ht⟩ := ih (acc ++ setOrder (dedupAcc acc (f p)))
        exact ⟨setOrder (dedupAcc acc (f p)) ++ t,
          by rw [ht, List.append_assoc]⟩

/-- Under any faithful batch enumeration, the fold inside
`merge_dependency` is a permutation of the canonical pass over the
concatenated parent resolutions: the elements appended do not depend on
the iteration order. -/
theorem merge_foldl_perm (setOrder : List String → List String)
    (hperm : ∀ l, (setOrder l).Perm l) (f : String → List String) :
    ∀ (ps acc : List String),
    (ps.foldl
        (fun dep parent =>
          if (f parent).isEmpty then dep
          else dep ++ setOrder (dedupAcc dep (f parent)))
        acc).Perm (acc ++ dedupAcc acc (ps.flatMap f)) := by
  intro ps
  induction ps with
  | nil =>
      intro acc
      simp only [List.foldl_nil, List.flatMap_nil, dedupAcc, List.append_nil]
      exact List.Perm.refl acc
  | cons p ps ih =>
      intro acc
      rw [List.foldl_cons, List.flatMap_cons, dedupAcc_append]
      by_cases hp : (f p).isEmpty
      · have hnil : f p = [] := by
          cases hfp : f p with
          | nil => rfl
          | cons a l => rw [hfp] at hp; simp at hp
        rw [if_pos hp, hnil]
        simpa [dedupAcc] using ih acc
      · rw [if_neg hp]
        have h1 := ih (acc ++ setOrder (dedupAcc acc (f p)))
        have h3 : dedupAcc (acc ++ setOrder (dedupAcc acc (f p)))
              (ps.flatMap f) =
            dedupAcc (dedupAcc acc (f p) ++ acc) (ps.flatMap f) := by
          apply dedupAcc_congr
          intro x
          have hx : x ∈ setOrder (dedupAcc acc (f p)) ↔
              x ∈ dedupAcc acc (f p) := (hperm _).mem_iff
          simp only [List.mem_append]
          tauto
        rw [h3] at h1
        refine h1.trans ?_
        rw [List.append_assoc]
        exact List.Perm.append_left acc
          ((hperm (dedupAcc acc (f p))).append (List.Perm.refl _))

/-- C2 counterexample: two runs differing only in the iteration order of
the Python set `set(parent_dep).difference(dep)` — both enumerating
exactly the batch's elements, as witnessed by the permutation facts —
append the new children of the same input in different orders.  The
emitted order is therefore not a deterministic function of the input
orders, and in particular not always the first-seen order. -/
theorem merge_dependency_order_counterexample :
    merge_dependency (fun l => l) "c" (fun _ => ["x", "y"]) ["p"] =
        ["p", "x", "y"] ∧
      merge_dependency (fun l => l.reverse) "c" (fun _ => ["x", "y"]) ["p"] =
        ["p", "y", "x"] ∧
      ((fun (l : List String) => l) ["x", "y"]).Perm ["x", "y"] ∧
      ((fun (l : List String) => l.reverse) ["x", "y"]).Perm ["x", "y"] ∧
      merge_dependency (fun l => l) "c" (fun _ => ["x", "y"]) ["p"] ≠
        merge_dependency (fun l => l.reverse) "c" (fun _ => ["x", "y"]) ["p"] :=
  ⟨rfl, rfl, by decide, by decide, by decide⟩

/-- C2 (amended): under every faithful enumeration of the set batches,
`merge_dependency` returns the node's direct parents first, in their given
order, followed by the new children — each parent's resolved dependencies
not already in the list — each appended exactly once, exactly when it is
not already in the list.  Which elements are emitted is a deterministic
function of the inputs (the result is a permutation of the canonical
first-seen pass), but the order within each appended batch follows the
set's iteration order and is not determined by the input orders. -/
theorem merge_dependency_spec (setOrder : List String → List String)
    (hperm : ∀ l, (setOrder l).Perm l) (item : String)
    (resolve_parent : String → List String) (parents : List String) :
    (merge_dependency setOrder item resolve_parent parents).take
        parents.length = parents ∧
      (merge_dependency setOrder item resolve_parent parents).Perm
        (parents ++ dedupAcc parents (parents.flatMap resolve_parent)) ∧
      ∀ x, x ∈ merge_dependency setOrder item resolve_parent parents ↔
        x ∈ parents ∨ ∃ p ∈ parents, x ∈ resolve_parent p := by
  have hp := merge_foldl_perm setOrder hperm resolve_parent parents parents
  refine ⟨?_, hp, fun x => ?_⟩
  · obtain ⟨t, ht⟩ := merge_foldl_prefix setOrder resolve_parent parents
      parents
    have ht' : merge_dependency setOrder item resolve_parent parents =
        parents ++ t := ht
    rw [ht', List.take_left]
  · have hmem : x ∈ merge_dependency setOrder item resolve_parent parents ↔
        x ∈ parents ++ dedupAcc parents (parents.flatMap resolve_parent) :=
      hp.mem_iff
    rw [hmem]
    simp only [List.mem_append, mem_dedupAcc, List.mem_flatMap]
    constructor
    · rintro (hx | ⟨⟨p, hp2, hx⟩, _⟩)
      · exact Or.inl hx
      · exact Or.inr ⟨p, hp2, hx⟩
    · rintro (hx | ⟨p, hp2, hx⟩)
      · exact Or.inl hx
      · by_cases hxp : x ∈ parents
        · exact Or.inl hxp
        · exact Or.inr ⟨⟨p, hp2, hx⟩, hxp⟩

/-- C2 witness: `merge_dependency_spec` applied at a concrete reversed
batch enumeration (a faithful, non-first-seen order), concrete parents and
resolver. -/
theorem merge_dependency_spec_witness :
    (merge_dependency (fun l => l.reverse) "c"
          (fun p => if p = "p" then ["x", "y"] else []) ["p", "q"]).take 2 =
        ["p", "q"] ∧
      (merge_dependency (fun l => l.reverse) "c"
          (fun p => if p = "p" then ["x", "y"] else []) ["p", "q"]).Perm
        (["p", "q"] ++ dedupAcc ["p", "q"]
          (["p", "q"].flatMap (fun p => if p = "p" then ["x", "y"] else []))) :=
  ⟨(merge_dependency_spec (fun l => l.reverse) (fun l => l.reverse_perm) "c"
      (fun p => if p = "p" then ["x", "y"] else []) ["p", "q"]).1,
    (merge_dependency_spec (fun l => l.reverse) (fun l => l.reverse_perm) "c"
      (fun p => if p = "p" then ["x", "y"] else []) ["p", "q"]).2.1⟩

/-- C4: whenever the parents iterable contains no duplicates, the list
returned by `merge_dependency` contains no element twice, regardless of
what `resolve_parent` returns for each parent and under every faithful
enumeration of the set batches. -/
theorem merge_dependency_nodup (setOrder : List String → List String)
    (hperm : ∀ l, (setOrder l).Perm l) (item : String)
    (resolve_parent : String → List String) (parents : List String)
    (h : parents.Nodup) :
    (merge_dependency setOrder item resolve_parent parents).Nodup := by
  have hp := merge_foldl_perm setOrder hperm resolve_parent parents parents
  have hcan : (parents ++
      dedupAcc parents (parents.flatMap resolve_parent)).Nodup := by
    refine List.Nodup.append h (nodup_dedupAcc _ _) ?_
    intro x hx hxd
    exact ((mem_dedupAcc x _ _).mp hxd).2 hx
  exact (List.Perm.nodup_iff hp).mpr hcan

/-- C4 witness: `merge_dependency_nodup` applied to concrete duplicate-free
parents, a resolver with overlapping results and a concrete reversed batch
enumeration. -/
theorem merge_dependency_nodup_witness :
    (merge_dependency (fun l => l.reverse) "web"
        (fun p => if p = "p" then ["x", "y"] else ["y", "z", "p"])
        ["p", "q"]).Nodup :=
  merge_dependency_nodup (fun l => l.reverse) (fun l => l.reverse_perm) "web"
    (fun p => if p = "p" then ["x", "y"] else ["y", "z", "p"])
    ["p", "q"] (by decide)

/-! ### `ContainerMap.check_integrity` -/

/-- `_get_instance_names` inside `check_integrity`: the dotted instance
names when `instances` is non-empty, else just the container name. -/
def instance_names (c_name : String) (instances : List String) : List String :=
  if instances.isEmpty then [c_name]
  else instances.map (fun i => c_name ++ "." ++ i)

/-- The six per-container lists extracted by `_get_container_items`. -/
structure ContainerItems where
  instanceNames : List String
  used : List String
  attached : List String
  shared : List String
  bindVolumes : List String
  linkTargets : List String
  deriving DecidableEq, Repr

/-- `_get_container_items` inside `check_integrity`: instance names, the
`uses` and `attaches` entries, the instance names again as shared names
when the container shares or binds anything, the bound volume aliases and
the linked container names. -/
def container_items (c_name : String) (ca : ContainerAssignment) :
    ContainerItems :=
  let inames := instance_names c_name ca.instances
  { instanceNames := inames
    used := ca.uses
    attached := ca.attaches
    shared := if !ca.shares.isEmpty || !ca.binds.isEmpty then inames else []
    bindVolumes := ca.binds.map (fun b => b.volume)
    linkTargets := ca.links_to.map (fun l => l.container) }

/-- All instance names declared in the map (`all_instances` chained). -/
def allInstances (m : ContainerMap) : List String :=
  m.containers.flatMap (fun p => (container_items p.1 p.2).instanceNames)

/-- All `uses` entries of the map (`all_used` chained). -/
def allUsed (m : ContainerMap) : List String :=
  m.containers.flatMap (fun p => (container_items p.1 p.2).used)

/-- All `attaches` entries of the map (`all_attached` chained). -/
def allAttached (m : ContainerMap) : List String :=
  m.containers.flatMap (fun p => (container_items p.1 p.2).attached)

/-- All shared instance names of the map (`all_shared` chained). -/
def allShared (m : ContainerMap) : List String :=
  m.containers.flatMap (fun p => (container_items p.1 p.2).shared)

/-- All bound volume aliases of the map (`all_binds` chained). -/
def allBinds (m : ContainerMap) : List String :=
  m.containers.flatMap (fun p => (container_items p.1 p.2).bindVolumes)

/-- All link targets of the map (`all_links` chained). -/
def allLinks (m : ContainerMap) : List String :=
  m.containers.flatMap (fun p => (container_items p.1 p.2).linkTargets)

/-- `volume_shared`: the chained shared lists followed by the chained
attached lists. -/
def volumeShared (m : ContainerMap) : List String :=
  allShared m ++ allAttached m

/-- The keys of the host volume assignment (`self._host.keys()`). -/
def hostKeys (m : ContainerMap) : List String := m.host.map (fun p => p.1)

/-- The keys of the volume alias map (`self._volumes.keys()`). -/
def volumeKeys (m : ContainerMap) : List String := m.volumes.map (fun p => p.1)

/-- The `duplicated` list of `check_integrity`: the shared or attached
names occurring more than once, in first-seen order. -/
def dupShared (m : ContainerMap) : List String :=
  dedupAcc [] ((volumeShared m).filter
    (fun n => decide (1 < (volumeShared m).count n)))

/-- The `missing_shares` set: `used_set - shared_set`, in first-seen
order. -/
def missingShares (m : ContainerMap) : List String :=
  dedupAcc [] ((allUsed m).filter (fun u => decide (u ∉ volumeShared m)))

/-- The `missing_binds` set: `binds_set - host_set`, in first-seen order. -/
def missingBinds (m : ContainerMap) : List String :=
  dedupAcc [] ((allBinds m).filter (fun b => decide (b ∉ hostKeys m)))

/-- The `missing_names` set: `volume_set - named_set` where `volume_set`
unites the bound and attached aliases, in first-seen order. -/
def missingNames (m : ContainerMap) : List String :=
  dedupAcc [] ((allBinds m ++ allAttached m).filter
    (fun a => decide (a ∉ volumeKeys m)))

/-- The `missing_links` set: `linked_set - instance_set`, in first-seen
order. -/
def missingLinks (m : ContainerMap) : List String :=
  dedupAcc [] ((allLinks m).filter (fun l => decide (l ∉ allInstances m)))

/-- `ContainerMap.check_integrity`: raises (returns `Except.error`) on the
first violated check, in source order — duplicated shared/attached names
(when `check_duplicates`), `uses` entries without a shared instance or
attached alias, `binds` aliases missing from `host`, `attaches`/`binds`
aliases missing from `volumes`, `links_to` targets without a declared
instance — and `Except.ok ()` otherwise.  On a map with no container
assignments, unpacking `zip(*[])` into six variables raises a
`ValueError` before any check runs; Python sets (`missing_*`,
`duplicated`) are rendered in first-seen order for the messages. -/
def check_integrity (m : ContainerMap) (check_duplicates : Bool) :
    Except String Unit :=
  if m.containers.isEmpty then
    Except.error "not enough values to unpack (expected 6, got 0)"
  else if check_duplicates && !(dupShared m).isEmpty then
    Except.error ("Duplicated shared or attached volumes found with name(s): "
      ++ String.intercalate ", " (dupShared m) ++ ".")
  else if !(missingShares m).isEmpty then
    Except.error ("No shared or attached volumes found for used volume(s): "
      ++ String.intercalate ", " (missingShares m) ++ ".")
  else if !(missingBinds m).isEmpty then
    Except.error ("No host share found for mapped volume(s): "
      ++ String.intercalate ", " (missingBinds m) ++ ".")
  else if !(missingNames m).isEmpty then
    Except.error ("No volume name-path-assignments found for volume(s): "
      ++ String.intercalate ", " (missingNames m) ++ ".")
  else if !(missingLinks m).isEmpty then
    Except.error ("No container instance found for link(s): "
      ++ String.intercalate ", " (missingLinks m) ++ ".")
  else
    Except.ok ()

/-- Invariant 1: each shared or attached name is unique across the map. -/
def unique_shared_attached (m : ContainerMap) : Prop :=
  (volumeShared m).Nodup

/-- Invariant 2: every `uses` reference resolves to a shared instance or an
attached alias of the map. -/
def uses_resolved (m : ContainerMap) : Prop :=
  ∀ u ∈ allUsed m, u ∈ volumeShared m

/-- Invariant 3: every `binds` volume alias appears in `host`. -/
def binds_in_host (m : ContainerMap) : Prop :=
  ∀ b ∈ allBinds m, b ∈ hostKeys m

/-- Invariant 4: every alias appearing in `attaches` or `binds` appears in
`volumes`. -/
def aliases_in_volumes (m : ContainerMap) : Prop :=
  ∀ a ∈ allBinds m ++ allAttached m, a ∈ volumeKeys m

/-- Invariant 5: every `links_to` target resolves to a declared container
instance. -/
def links_declared (m : ContainerMap) : Prop :=
  ∀ l ∈ allLinks m, l ∈ allInstances m

instance (m : ContainerMap) : Decidable (unique_shared_attached m) :=
  inferInstanceAs (Decidable ((volumeShared m).Nodup))

instance (m : ContainerMap) : Decidable (uses_resolved m) :=
  inferInstanceAs (Decidable (∀ u ∈ allUsed m, u ∈ volumeShared m))

instance (m : ContainerMap) : Decidable (binds_in_host m) :=
  inferInstanceAs (Decidable (∀ b ∈ allBinds m, b ∈ hostKeys m))

instance (m : ContainerMap) : Decidable (aliases_in_volumes m) :=
  inferInstanceAs
    (Decidable (∀ a ∈ allBinds m ++ allAttached m, a ∈ volumeKeys m))

instance (m : ContainerMap) : Decidable (links_declared m) :=
  inferInstanceAs (Decidable (∀ l ∈ allLinks m, l ∈ allInstances m))

/-- `dedupAcc` from an empty seen list is empty iff the input is. -/
theorem dedupAcc_nil_eq_nil (l : List String) : dedupAcc [] l = [] ↔ l = [] := by
  cases l with
  | nil => simp [dedupAcc]
  | cons x xs => simp [dedupAcc]

/-- Filtering for elements outside a key list gives the empty list exactly
when every element is a key. -/
theorem filter_not_mem_eq_nil (l keys : List String) :
    l.filter (fun x => decide (x ∉ keys)) = [] ↔ ∀ x ∈ l, x ∈ keys := by
  rw [List.filter_eq_nil_iff]
  constructor
  · intro h x hx
    have := h x hx
    simpa using this
  · intro h x hx
    simpa using h x hx

/-- The duplicate list of `check_integrity` is empty exactly when the
shared/attached names are unique. -/
theorem dupShared_eq_nil (m : ContainerMap) :
    dupShared m = [] ↔ unique_shared_attached m := by
  rw [dupShared, dedupAcc_nil_eq_nil, List.filter_eq_nil_iff,
    unique_shared_attached, List.nodup_iff_count_le_one]
  constructor
  · intro h a
    by_cases ha : a ∈ volumeShared m
    · have h2 := h a ha
      simp only [decide_eq_true_eq] at h2
      omega
    · rw [List.count_eq_zero.mpr ha]
      omega
  · intro h a _
    simp only [decide_eq_true_eq]
    have := h a
    omega

/-- `missing_shares` is empty exactly when invariant 2 holds. -/
theorem missingShares_eq_nil (m : ContainerMap) :
    missingShares m = [] ↔ uses_resolved m := by
  rw [missingShares, dedupAcc_nil_eq_nil, filter_not_mem_eq_nil]
  rfl

/-- `missing_binds` is empty exactly when invariant 3 holds. -/
theorem missingBinds_eq_nil (m : ContainerMap) :
    missingBinds m = [] ↔ binds_in_host m := by
  rw [missingBinds, dedupAcc_nil_eq_nil, filter_not_mem_eq_nil]
  rfl

/-- `missing_names` is empty exactly when invariant 4 holds. -/
theorem missingNames_eq_nil (m : ContainerMap) :
    missingNames m = [] ↔ aliases_in_volumes m := by
  rw [missingNames, dedupAcc_nil_eq_nil, filter_not_mem_eq_nil]
  rfl

/-- `missing_links` is empty exactly when invariant 5 holds. -/
theorem missingLinks_eq_nil (m : ContainerMap) :
    missingLinks m = [] ↔ links_declared m := by
  rw [missingLinks, dedupAcc_nil_eq_nil, filter_not_mem_eq_nil]
  rfl

/-- A negated ite condition of the form `!(l.isEmpty)` forces `l = []`. -/
theorem eq_nil_of_not_isEmpty_bne {l : List String}
    (hh : ¬ ((!l.isEmpty) = true)) : l = [] := by
  have h2 : l.isEmpty = true := by simpa using hh
  exact List.isEmpty_iff.mp h2

/-- C3 (amended): on a map holding at least one container assignment,
`check_integrity` with duplicate checking enabled returns normally exactly
when the five invariants hold: unique shared/attached names, `uses`
resolving to a shared instance or attached alias, `binds` aliases present
in `host`, `attaches`/`binds` aliases present in `volumes`, and `links_to`
targets resolving to a declared container instance. -/
theorem check_integrity_spec (m : ContainerMap) (h : m.containers ≠ []) :
    check_integrity m true = Except.ok () ↔
      unique_shared_attached m ∧ uses_resolved m ∧ binds_in_host m ∧
        aliases_in_volumes m ∧ links_declared m := by
  have hne : m.containers.isEmpty = false := by
    simpa [List.isEmpty_iff] using h
  unfold check_integrity
  rw [hne]
  simp only [Bool.false_eq_true, if_false, Bool.true_and]
  rw [← dupShared_eq_nil, ← missingShares_eq_nil, ← missingBinds_eq_nil,
    ← missingNames_eq_nil, ← missingLinks_eq_nil]
  constructor
  · intro hok
    split_ifs at hok with h1 h2 h3 h4 h5
    all_goals first
      | exact Except.noConfusion hok
      | exact ⟨eq_nil_of_not_isEmpty_bne h1, eq_nil_of_not_isEmpty_bne h2,
          eq_nil_of_not_isEmpty_bne h3, eq_nil_of_not_isEmpty_bne h4,
          eq_nil_of_not_isEmpty_bne h5⟩
  · rintro ⟨i1, i2, i3, i4, i5⟩
    simp [i1, i2, i3, i4, i5]

/-- The empty container map used as the C3 counterexample. -/
def emptyMap : ContainerMap := ⟨"m", [], [], []⟩

/-- C3 counterexample: on a map without container assignments all five
invariants hold vacuously, yet `check_integrity` raises — unpacking
`zip(*[])` into six variables fails with a `ValueError` — so "returns
normally iff the invariants hold" is false at the empty map. -/
theorem check_integrity_empty_counterexample :
    check_integrity emptyMap true =
        Except.error "not enough values to unpack (expected 6, got 0)" ∧
      unique_shared_attached emptyMap ∧ uses_resolved emptyMap ∧
      binds_in_host emptyMap ∧ aliases_in_volumes emptyMap ∧
      links_declared emptyMap :=
  ⟨rfl, by decide, by decide, by decide, by decide, by decide⟩

/-- A well-formed concrete map exercising shares, binds, attaches, uses and
links. -/
def goodMap : ContainerMap :=
  ⟨"m", [("cfg", "/h/cfg")], [("cfg", "/c/cfg"), ("va", "/c/va")],
    [("redis",
      { instances := ["cache", "queue"], shares := ["/data"],
        attaches := ["va"] }),
     ("server",
      { uses := ["va"], binds := [{ volume := "cfg" }],
        links_to := [{ container := "redis.cache" }] })]⟩

/-- C3 witness: `check_integrity_spec` applied to the concrete `goodMap`,
whose invariants all hold. -/
theorem check_integrity_spec_witness :
    check_integrity goodMap true = Except.ok () :=
  (check_integrity_spec goodMap (by decide)).mpr (by decide)

/-! ### `ContainerMap.__init__` -/

/-- The initial data handed to the `ContainerMap` constructor: the merged
positional `initial` dict and `kwargs`.  `update` routes the reserved
`host` and `volumes` keys to their assignments via `get` and the remaining
keys to container assignments; `ContainerAssignment.update` on a fresh
default assignment installs the given attributes (modelled from the spec's
update routing, §3/§6). -/
structure MapInit where
  host : List (String × String) := []
  volumes : List (String × String) := []
  containers : List (String × ContainerAssignment) := []
  deriving DecidableEq, Repr

/-- Python truthiness of `(initial or kwargs)`: true iff any initial data
was given at all. -/
def MapInit.isEmptyData (d : MapInit) : Bool :=
  d.host.isEmpty && d.volumes.isEmpty && d.containers.isEmpty

/-- The map state built by `update` from the initial data. -/
def MapInit.toMap (d : MapInit) (name : String) : ContainerMap :=
  ⟨name, d.host, d.volumes, d.containers⟩

/-- `ContainerMap.__init__`: build the map from the initial data, then
`if (initial or kwargs) and check_integrity: self.check_integrity()`; an
integrity error propagates out of the constructor, otherwise the built map
is returned. -/
def container_map_init (name : String) (initial : MapInit)
    (check : Bool) : Except String ContainerMap :=
  if !initial.isEmptyData && check then
    match check_integrity (initial.toMap name) true with
    | Except.ok _ => Except.ok (initial.toMap name)
    | Except.error e => Except.error e
  else
    Except.ok (initial.toMap name)

/-- C7: when initial data is given (positional or keyword) and integrity
checking is not disabled, the constructor runs the integrity check before
returning: a violating map raises the integrity error from the
constructor, and any map the constructor returns has already passed the
check. -/
theorem container_map_init_spec (name : String) (initial : MapInit)
    (h : initial.isEmptyData = false) :
    (∀ e, check_integrity (initial.toMap name) true = Except.error e →
        container_map_init name initial true = Except.error e) ∧
    (∀ m, container_map_init name initial true = Except.ok m →
        m = initial.toMap name ∧ check_integrity m true = Except.ok ()) := by
  constructor
  · intro e he
    simp [container_map_init, h, he]
  · intro m hm
    cases hc : check_integrity (initial.toMap name) true with
    | ok u =>
        cases u
        simp [container_map_init, h, hc] at hm
        exact ⟨hm.symm, hm ▸ hc⟩
    | error e =>
        simp [container_map_init, h, hc] at hm

/-- The violating initial data for the C7 witness: `web` uses a volume that
nothing in the map shares or attaches. -/
def badInit : MapInit := { containers := [("web", { uses := ["x"] })] }

/-- The well-formed initial data for the C7 witness. -/
def goodInit : MapInit := { containers := [("web", { shares := ["/data"] })] }

/-- C7 witness: `container_map_init_spec` applied to concrete initial data;
the violating map raises from the constructor and the well-formed one is
returned only after passing the check. -/
theorem container_map_init_spec_witness :
    container_map_init "m" badInit true =
        Except.error
          "No shared or attached volumes found for used volume(s): x." ∧
      check_integrity (badInit.toMap "m") true ≠ Except.ok () ∧
      check_integrity (goodInit.toMap "m") true = Except.ok () :=
  ⟨(container_map_init_spec "m" badInit (by decide)).1 _ rfl,
    fun hc => Except.noConfusion ((rfl :
      check_integrity (badInit.toMap "m") true =
        Except.error
          "No shared or attached volumes found for used volume(s): x.") ▸ hc),
    ((container_map_init_spec "m" goodInit (by decide)).2 (goodInit.toMap "m")
        rfl).2⟩
